import Mathlib

/-!
Shallow embedding of the dependency-reconciliation core of
`lib/spack/spack/build_systems/r.py`: the CRAN DESCRIPTION record parser
(`RBuilder.parse_description`, the in-repo port of pycran's parser) and the
dependency reconciler inside `RBuilder.install`.

Python strings are modelled as Lean `String` (character lists); Python's
`str.strip`, `str.split`, `str.splitlines` are modelled by the `py*` helpers
below. Character classes (`isalpha`, `\w`, `\d`, `\s`) are modelled over
ASCII, which covers all inputs the code is used on.
-/

/-- Python `str.strip` on a character list: drop whitespace from both ends. -/
def stripL (l : List Char) : List Char :=
  ((l.dropWhile Char.isWhitespace).reverse.dropWhile Char.isWhitespace).reverse

/-- Python `str.strip` on strings. -/
def pyStrip (s : String) : String := ⟨stripL s.data⟩

/-- Python `s.split(sep)` on character lists, for a one-character separator. -/
def splitOnCharL (sep : Char) : List Char → List (List Char)
  | [] => [[]]
  | c :: rest =>
    if c = sep then [] :: splitOnCharL sep rest
    else
      match splitOnCharL sep rest with
      | [] => [[c]]
      | l :: ls => (c :: l) :: ls

/-- Python `s.split(sep)` for a one-character separator. -/
def pySplit (sep : Char) (s : String) : List String :=
  (splitOnCharL sep s.data).map fun l => ⟨l⟩

/-- Python `s.splitlines`, modelled as splitting on the newline character. -/
def pySplitLines (s : String) : List String := pySplit '\n' s

/-- Python `line.split(":", maxsplit=1)`: the text before the first colon and
the text after it, or `none` when the line has no colon. -/
def breakAtColon : List Char → Option (List Char × List Char)
  | [] => none
  | c :: rest =>
    if c = ':' then some ([], rest)
    else (breakAtColon rest).map fun p => (c :: p.1, p.2)

/-- `breakAtColon` on strings. -/
def firstColonSplit (s : String) : Option (String × String) :=
  (breakAtColon s.data).map fun p => (⟨p.1⟩, ⟨p.2⟩)

/-- Python `s[0].isalpha()` for a string known to be nonempty; `false` on the
empty string (the code never asks in that case: it has already raised). -/
def firstIsAlpha (s : String) : Bool :=
  match s.data with
  | [] => false
  | c :: _ => c.isAlpha

/-- A parsed DESCRIPTION record: insertion-ordered field/value pairs, the
model of the Python dict `package`. -/
abbrev Record := List (String × String)

/-- Dict lookup: the value stored under key `k`, if present. -/
def lookupR (r : Record) (k : String) : Option String :=
  (r.find? (fun p => p.1 == k)).map (·.2)

/-- The inner `append` helper of `parse_description`: concatenate text onto
the value of the most recently inserted field; no-op on an empty record. -/
def recAppend : Record → String → Record
  | [], _ => []
  | [p], s => [(p.1, p.2 ++ s)]
  | p :: q :: rest, s => p :: recAppend (q :: rest) s

/-- The parser's loop state: the `fields` seen-set, the in-progress `package`
record, and the records yielded so far. -/
structure PState where
  fields : List String
  package : Record
  out : List Record
deriving DecidableEq, Repr

def initState : PState := ⟨[], [], []⟩

/-- One iteration of the line loop of `RBuilder.parse_description`.
`none` models the `IndexError` raised by `field[0]` when the text before the
first colon strips to the empty string. -/
def processLine (st : PState) (line : String) : Option PState :=
  if pyStrip line = "" then some st
  else
    match firstColonSplit line with
    | none => some { st with package := recAppend st.package (" " ++ pyStrip line) }
    | some (rawField, rawValue) =>
      if pyStrip rawField = "" then none
      else if firstIsAlpha (pyStrip rawField) then
        if pyStrip rawField ∈ st.fields then
          some { fields := [pyStrip rawField],
                 package := [(pyStrip rawField, pyStrip rawValue)],
                 out := st.out ++ (if st.package = [] then [] else [st.package]) }
        else
          some { st with fields := pyStrip rawField :: st.fields,
                         package := st.package ++ [(pyStrip rawField, pyStrip (pyStrip rawValue))] }
      else
        some { st with package := recAppend st.package (" " ++ pyStrip line) }

/-- Run the line loop over all lines: final state, plus a flag that is `true`
when the loop raised (crashed) on some line. -/
def runLines : PState → List String → PState × Bool
  | st, [] => (st, false)
  | st, l :: ls =>
    match processLine st l with
    | some st2 => runLines st2 ls
    | none => (st, true)

/-- The epilogue of the parser: on a crash the consumer observes exactly the
records yielded before the exception; otherwise the nonempty in-progress
record is yielded last (`if package: yield package`). -/
def finishParse (res : PState × Bool) : List Record × Bool :=
  if res.2 then (res.1.out, true)
  else (res.1.out ++ (if res.1.package = [] then [] else [res.1.package]), false)

/-- `RBuilder.parse_description`: the records the generator yields, in order,
and a crash flag. -/
def parse_description (data : String) : List Record × Bool :=
  finishParse (runLines initState (pySplitLines data))

/-! ## The dependency reconciler of `RBuilder.install` -/

/-- Character class of Python's `[\w_-]` (ASCII): letter, digit, underscore
or dash. -/
def isWordChar (c : Char) : Bool := c.isAlphanum || c = '_' || c = '-'

/-- Character class of Python's `[\d.-]`: digit, dot or dash. -/
def isVerChar (c : Char) : Bool := c.isDigit || c = '.' || c = '-'

/-- Python `str.lower` (ASCII). -/
def pyLower (s : String) : String := ⟨s.data.map Char.toLower⟩

/-- `re.search(r"^[\w_-]+", r_dep)`: the maximal nonempty run of word
characters at the start of the string, or `none` if the first character is
not a word character. -/
def leadingName (s : String) : Option String :=
  match s.data.takeWhile isWordChar with
  | [] => none
  | l => some ⟨l⟩

/-- The character list up to (excluding) the last occurrence of `c`. -/
def upToLast (c : Char) (l : List Char) : List Char :=
  (((l.reverse).dropWhile (· ≠ c)).drop 1).reverse

/-- `re.search("(?<=[(]).*(?=[)])", r_dep)`: the text between the first
opening parenthesis and the last closing parenthesis after it, or `none`
when no such pair exists. -/
def parenContents (s : String) : Option String :=
  match s.data.dropWhile (· ≠ '(') with
  | [] => none
  | _ :: after => if ')' ∈ after then some ⟨upToLast ')' after⟩ else none

/-- Fuel-driven scan of `re.sub(r">=\s([\d.-]+)", r"@\1:", v)`: every
occurrence of `>=`, one whitespace character, and a nonempty run of version
characters is rewritten to `@run:`; scanning resumes after the match. -/
def subGEF : Nat → List Char → List Char
  | 0, l => l
  | _ + 1, [] => []
  | fuel + 1, c :: rest =>
    if c = '>' then
      match rest with
      | '=' :: w :: rest2 =>
        if w.isWhitespace then
          match rest2.takeWhile isVerChar with
          | [] => c :: subGEF fuel rest
          | run => '@' :: (run ++ ':' :: subGEF fuel (rest2.drop run.length))
        else c :: subGEF fuel rest
      | _ => c :: subGEF fuel rest
    else c :: subGEF fuel rest

/-- Fuel-driven scan of `re.sub(r"==\s([\d.-]+)", r"@\1", v)`. -/
def subEQF : Nat → List Char → List Char
  | 0, l => l
  | _ + 1, [] => []
  | fuel + 1, c :: rest =>
    if c = '=' then
      match rest with
      | '=' :: w :: rest2 =>
        if w.isWhitespace then
          match rest2.takeWhile isVerChar with
          | [] => c :: subEQF fuel rest
          | run => '@' :: (run ++ subEQF fuel (rest2.drop run.length))
        else c :: subEQF fuel rest
      | _ => c :: subEQF fuel rest
    else c :: subEQF fuel rest

/-- The two `re.sub` rewrites applied to a version clause, `>=` first then
`==`, exactly as in `RBuilder.install`. -/
def translateClause (v : String) : String :=
  let g := subGEF v.data.length v.data
  ⟨subEQF g.length g⟩

/-- Normalization of one foreign dependency specifier (`RBuilder.install`,
the body of the `for r_dep in r_deps` loop): the normalized package name and
the full spec string, or the `assert` failure message when no leading name
can be extracted. -/
def normalizeDep (r_dep : String) : Except String (String × String) :=
  match leadingName r_dep with
  | none => .error ("Unable to find package name in " ++ r_dep)
  | some p =>
    let r_spec := if pyLower p = "r" then "r" else "r-" ++ pyLower p
    match parenContents r_dep with
    | some v => .ok (r_spec, r_spec ++ translateClause v)
    | none => .ok (r_spec, r_spec)

/-- Python dict assignment `d[k] = v`: replace the value in place when the
key is present, otherwise append the pair at the end. -/
def dictInsert (d : List (String × String)) (k v : String) : List (String × String) :=
  if d.any (fun p => p.1 == k) then
    d.map (fun p => if p.1 == k then (k, v) else p)
  else d ++ [(k, v)]

/-- The `deps` dict of `RBuilder.install`: fold normalization over the
specifier list, the `assert` aborting the whole loop. -/
def buildDeps (r_deps : List String) : Except String (List (String × String)) :=
  r_deps.foldlM (fun d r_dep => (normalizeDep r_dep).map fun p => dictInsert d p.1 p.2) []

/-- Extraction of the raw specifier list from the parsed records
(`RBuilder.install`, the `for desc in pycran.parse(...)` loop): per record,
the comma-split fragments of `Imports` then of `Depends`, each fragment kept
when nonempty before stripping and then stripped. -/
def extractDeps (records : List Record) : List String :=
  records.flatMap fun desc =>
    (match lookupR desc "Imports" with
     | some v => ((pySplit ',' v).filter (fun d => d ≠ "")).map pyStrip
     | none => []) ++
    (match lookupR desc "Depends" with
     | some v => ((pySplit ',' v).filter (fun d => d ≠ "")).map pyStrip
     | none => [])

/-- `sorted(deps.keys())`: the keys in ascending lexicographic order
(a stable sort, like Python's). -/
def sortKeys (d : List (String × String)) : List String :=
  (d.map (·.1)).insertionSort (· ≤ ·)

/-- The diagnostic line `tty.debug` emits for a missing or weaker
dependency, with `spec` the foreign dependency's spec string and `ver` the
package's own version. -/
def diagLine (spec ver : String) : String :=
  "    depends_on(\"" ++ spec ++ "\", when=\"@" ++ ver ++ ":\", type=(\"build\", \"run\"))"

/-- `deps[dep].spec` for a key known to be in the dict (total with a dummy
default, as in Python where the key is always present). -/
def lookupD (d : List (String × String)) (k : String) : String :=
  (lookupR d k).getD ""

/-- The comparison loop of `RBuilder.install` (`for dep in sorted(...)`),
parameterized by the host constraint engine `satisfies` (Spack's
`Spec.satisfies`, an external collaborator): the diagnostic lines emitted,
in order. -/
def reconcile (satisfies : String → String → Bool)
    (deps merged : List (String × String)) (ver : String) : List String :=
  (sortKeys deps).foldl
    (fun acc dep =>
      match lookupR merged dep with
      | some h =>
        if satisfies h (lookupD deps dep) then acc
        else acc ++ [diagLine (lookupD deps dep) ver]
      | none => acc ++ [diagLine (lookupD deps dep) ver])
    []

/-- The spec-side verdict for one foreign dependency (§3 Reconciliation
Result): missing, weaker, or satisfied. -/
inductive Verdict
  | missing
  | weaker
  | satisfied
deriving DecidableEq, Repr

/-- The verdict assigned to foreign dependency `name` with spec `fspec`
against the merged host rules. -/
def verdictOf (satisfies : String → String → Bool)
    (merged : List (String × String)) (name fspec : String) : Verdict :=
  match lookupR merged name with
  | none => .missing
  | some h => if satisfies h fspec then .satisfied else .weaker

/-- The whole pycran-powered reconciliation block of `RBuilder.install`:
parse the DESCRIPTION text, extract and normalize the specifiers, compare
against the merged host rules. Errors (the parser's IndexError, the
`assert`) propagate: only ImportError is caught in the source. -/
def reconcileFromText (satisfies : String → String → Bool)
    (merged : List (String × String)) (ver : String) (text : String) :
    Except String (List String) :=
  let parsed := parse_description text
  if parsed.2 then .error "IndexError" else
  match buildDeps (extractDeps parsed.1) with
  | .error e => .error e
  | .ok deps => .ok (reconcile satisfies deps merged ver)

/-- Python `" ".join`. -/
def joinSpace : List String → String
  | [] => ""
  | [x] => x
  | x :: y :: rest => x ++ " " ++ joinSpace (y :: rest)

/-- The argument list passed to `R` by `RBuilder.install`: the fixed
`--vanilla CMD INSTALL` head, the optional configure args/vars tokens, and
the fixed `--library=<dir> <source-path>` tail. -/
def installArgs (configArgs configVars : List String) (rLibDir sourcePath : String) :
    List String :=
  ["--vanilla", "CMD", "INSTALL"] ++
  (if configArgs = [] then [] else ["--configure-args=" ++ joinSpace configArgs]) ++
  (if configVars = [] then [] else ["--configure-vars=" ++ joinSpace configVars]) ++
  ["--library=" ++ rLibDir, sourcePath]

/-- The observable outcome of `RBuilder.install`: the diagnostic lines sent
to `tty.debug` and the arguments of the final `R` invocation. -/
structure InstallOutcome where
  diagnostics : List String
  args : List String
deriving DecidableEq, Repr

/-- `RBuilder.install`, parameterized by whether the optional `pycran`
module loads. When it fails (`ImportError`), the whole reconciliation is
skipped with one debug diagnostic; any other reconciliation error
propagates and aborts the install. -/
def install (pycranAvailable : Bool) (text : String)
    (satisfies : String → String → Bool) (merged : List (String × String))
    (ver : String) (configArgs configVars : List String)
    (rLibDir sourcePath : String) : Except String InstallOutcome :=
  if pycranAvailable then
    match reconcileFromText satisfies merged ver text with
    | .error e => .error e
    | .ok diags => .ok ⟨diags, installArgs configArgs configVars rLibDir sourcePath⟩
  else
    .ok ⟨["R package dependency verification requires pycran"],
         installArgs configArgs configVars rLibDir sourcePath⟩

/-! ## Helper lemmas -/

theorem recAppend_keys (r : Record) (s : String) :
    (recAppend r s).map Prod.fst = r.map Prod.fst := by
  induction r with
  | nil => rfl
  | cons p rest ih =>
    cases rest with
    | nil => rfl
    | cons q rest2 => simpa [recAppend] using ih

theorem processLine_out_nonempty {st st2 : PState} {line : String}
    (h : processLine st line = some st2) (hst : ∀ r ∈ st.out, r ≠ []) :
    ∀ r ∈ st2.out, r ≠ [] := by
  unfold processLine at h
  split at h
  · cases h; exact hst
  · split at h
    · cases h; exact hst
    · split at h
      · exact absurd h (by simp)
      · split at h
        · split at h
          · cases h
            intro r hr
            rcases List.mem_append.mp hr with h1 | h2
            · exact hst r h1
            · split at h2
              · simp at h2
              · rename_i hpkg
                simp only [List.mem_singleton] at h2
                exact h2 ▸ hpkg
          · cases h; exact hst
        · cases h; exact hst

theorem finishParse_nonempty (res : PState × Bool)
    (hst : ∀ r ∈ res.1.out, r ≠ []) :
    ∀ r ∈ (finishParse res).1, r ≠ [] := by
  intro r hr
  unfold finishParse at hr
  split at hr
  · exact hst r hr
  · rcases List.mem_append.mp hr with h1 | h2
    · exact hst r h1
    · split at h2
      · simp at h2
      · rename_i hpkg
        simp only [List.mem_singleton] at h2
        exact h2 ▸ hpkg

theorem runLines_out_nonempty (lines : List String) (st : PState)
    (hst : ∀ r ∈ st.out, r ≠ []) :
    ∀ r ∈ (runLines st lines).1.out, r ≠ [] := by
  induction lines generalizing st with
  | nil => simpa [runLines] using hst
  | cons l ls ih =>
    simp only [runLines]
    cases hpl : processLine st l with
    | some st2 => exact ih st2 (processLine_out_nonempty hpl hst)
    | none => simpa using hst

/-- C10: every record the parser yields is non-empty — the boundary yield
emits the previous record only when it is non-empty, and the final yield is
guarded on the in-progress record being non-empty, so a consumer never
observes an empty record. -/
theorem C10_yielded_records_nonempty (data : String) :
    ∀ r ∈ (parse_description data).1, r ≠ [] :=
  finishParse_nonempty _
    (runLines_out_nonempty (pySplitLines data) initState (by simp [initState]))

theorem C10_witness :
    ([("Package", "x")] : Record) ≠ [] :=
  C10_yielded_records_nonempty "Package: x" [("Package", "x")] (by decide)

theorem all_ws_of_dropWhile (l : List Char)
    (h : ∀ c ∈ l.dropWhile Char.isWhitespace, c.isWhitespace) :
    ∀ c ∈ l, c.isWhitespace := by
  intro c hc
  rw [← List.takeWhile_append_dropWhile (p := Char.isWhitespace) (l := l)] at hc
  rcases List.mem_append.mp hc with h1 | h2
  · exact List.mem_takeWhile_imp h1
  · exact h c h2

theorem stripL_eq_nil_iff (l : List Char) :
    stripL l = [] ↔ ∀ c ∈ l, c.isWhitespace := by
  constructor
  · intro h
    unfold stripL at h
    rw [List.reverse_eq_nil_iff, List.dropWhile_eq_nil_iff] at h
    refine all_ws_of_dropWhile l ?_
    intro c hc
    exact h c (List.mem_reverse.mpr hc)
  · intro h
    unfold stripL
    rw [List.reverse_eq_nil_iff, List.dropWhile_eq_nil_iff]
    intro c hc
    exact h c ((List.dropWhile_sublist _).subset (List.mem_reverse.mp hc))

theorem colon_mem_of_breakAtColon :
    ∀ {l : List Char} {p : List Char × List Char}, breakAtColon l = some p → ':' ∈ l := by
  intro l
  induction l with
  | nil => intro p h; simp [breakAtColon] at h
  | cons c rest ih =>
    intro p h
    by_cases hc : c = ':'
    · exact hc ▸ List.mem_cons_self _ _
    · cases hbr : breakAtColon rest with
      | none => simp [breakAtColon, hc, hbr] at h
      | some q => exact List.mem_cons_of_mem _ (ih hbr)

theorem pyStrip_ne_empty_of_colon {line rf rv : String}
    (h : firstColonSplit line = some (rf, rv)) : pyStrip line ≠ "" := by
  have hbr : ∃ p, breakAtColon line.data = some p := by
    unfold firstColonSplit at h
    cases hb : breakAtColon line.data with
    | none => rw [hb] at h; simp at h
    | some p => exact ⟨p, rfl⟩
  obtain ⟨p, hp⟩ := hbr
  have hmem : ':' ∈ line.data := colon_mem_of_breakAtColon hp
  intro hc
  have hdata : stripL line.data = [] := by
    have := congrArg String.data hc
    simpa [pyStrip] using this
  have hws := (stripL_eq_nil_iff line.data).mp hdata ':' hmem
  simp [Char.isWhitespace] at hws

/-- The parser's seen-set contains exactly the field names of the
in-progress record (the invariant behind the record-boundary test). -/
def seenInv (st : PState) : Prop :=
  (∀ f ∈ st.fields, f ∈ st.package.map Prod.fst) ∧
  (∀ f ∈ st.package.map Prod.fst, f ∈ st.fields)

/-- C3: reading a field line whose field name is already present in the
current in-progress record yields the current record as completed and starts
a new record seeded with the repeated field, the seen-set reset to that
field alone; concretely, two consecutive identical field names split the
input into two records, the second starting with the repeated field. -/
theorem C3_repeated_field_starts_new_record :
    (∀ (st : PState) (line rawField rawValue : String),
      seenInv st →
      firstColonSplit line = some (rawField, rawValue) →
      pyStrip rawField ≠ "" →
      firstIsAlpha (pyStrip rawField) = true →
      pyStrip rawField ∈ st.package.map Prod.fst →
      processLine st line = some
        { fields := [pyStrip rawField],
          package := [(pyStrip rawField, pyStrip rawValue)],
          out := st.out ++ (if st.package = [] then [] else [st.package]) }) ∧
    parse_description "A: 1\nB: 2\nB: 3" =
      ([[("A", "1"), ("B", "2")], [("B", "3")]], false) := by
  constructor
  · intro st line rawField rawValue hinv hsplit hne halpha hmem
    have hmemf : pyStrip rawField ∈ st.fields := hinv.2 _ hmem
    have hline : pyStrip line ≠ "" := pyStrip_ne_empty_of_colon hsplit
    unfold processLine
    simp [hline, hsplit, hne, halpha, hmemf]
  · decide

theorem C3_witness :
    processLine ⟨["B", "A"], [("A", "1"), ("B", "2")], []⟩ "B: 3" =
      some ⟨["B"], [("B", "3")], [[("A", "1"), ("B", "2")]]⟩ := by
  have h := C3_repeated_field_starts_new_record.1
    ⟨["B", "A"], [("A", "1"), ("B", "2")], []⟩ "B: 3" "B" " 3"
    (by constructor <;> decide) (by decide) (by decide) (by decide) (by decide)
  simpa using h

/-- C8: a continuation line — no colon, or a colon whose candidate field
name is non-alphabetic — is appended, trimmed and prefixed with exactly one
space, to the value of the most recently inserted field of the current
record; concretely "Imports: A," followed by an indented "B (>= 1.0)" gives
an Imports value of "A, B (>= 1.0)". -/
theorem C8_continuation_appends :
    (∀ (r : Record) (f v s : String),
      recAppend (r ++ [(f, v)]) s = r ++ [(f, v ++ s)]) ∧
    (∀ (st : PState) (line : String),
      pyStrip line ≠ "" →
      firstColonSplit line = none →
      processLine st line =
        some { st with package := recAppend st.package (" " ++ pyStrip line) }) ∧
    (∀ (st : PState) (line rawField rawValue : String),
      firstColonSplit line = some (rawField, rawValue) →
      pyStrip rawField ≠ "" →
      firstIsAlpha (pyStrip rawField) = false →
      processLine st line =
        some { st with package := recAppend st.package (" " ++ pyStrip line) }) ∧
    parse_description "Imports: A,\n    B (>= 1.0)" =
      ([[("Imports", "A, B (>= 1.0)")]], false) := by
  refine ⟨?_, ?_, ?_, by decide⟩
  · intro r f v s
    induction r with
    | nil => rfl
    | cons p rest ih =>
      cases rest with
      | nil => rfl
      | cons q rest2 =>
        simp only [List.cons_append] at ih ⊢
        rw [recAppend, ih]
  · intro st line h1 h2
    unfold processLine
    simp [h1, h2]
  · intro st line rawField rawValue hsplit hne halpha
    have hline : pyStrip line ≠ "" := pyStrip_ne_empty_of_colon hsplit
    unfold processLine
    simp [hline, hsplit, hne, halpha]

theorem C8_witness :
    processLine ⟨["Imports"], [("Imports", "A,")], []⟩ "    B (>= 1.0)" =
      some ⟨["Imports"], [("Imports", "A, B (>= 1.0)")], []⟩ := by
  have h := C8_continuation_appends.2.1
    ⟨["Imports"], [("Imports", "A,")], []⟩ "    B (>= 1.0)" (by decide) (by decide)
  simpa using h

/-- C4 counterexample: the line ": 2.0" contains a colon, yet the parser
raises (the IndexError of `field[0]`) instead of processing it, so the
parser is not total over arbitrary text. -/
theorem C4_counterexample :
    (parse_description ": 2.0").2 = true ∧ processLine initState ": 2.0" = none := by
  constructor <;> decide

/-- C4 amended: a line containing a colon is processed without raising when
the candidate field name (the stripped text before the first colon) is
nonempty — including the fallback treating the whole line as continuation
when its first character is not alphabetic — but a line whose candidate
field name strips to empty raises an IndexError. -/
theorem C4_colon_split_amended :
    (∀ (st : PState) (line rawField rawValue : String),
      firstColonSplit line = some (rawField, rawValue) →
      pyStrip rawField ≠ "" →
      ∃ st2, processLine st line = some st2) ∧
    (∀ (st : PState) (line rawField rawValue : String),
      firstColonSplit line = some (rawField, rawValue) →
      pyStrip rawField = "" →
      processLine st line = none) := by
  constructor
  · intro st line rawField rawValue hsplit hne
    have hline : pyStrip line ≠ "" := pyStrip_ne_empty_of_colon hsplit
    unfold processLine
    simp only [hsplit, if_neg hline, if_neg hne]
    split
    · split
      · exact ⟨_, rfl⟩
      · exact ⟨_, rfl⟩
    · exact ⟨_, rfl⟩
  · intro st line rawField rawValue hsplit hzero
    have hline : pyStrip line ≠ "" := pyStrip_ne_empty_of_colon hsplit
    unfold processLine
    simp [hline, hsplit, hzero]

theorem C4_witness :
    (∃ st2, processLine initState "A: 1" = some st2) ∧
      processLine initState ": 2.0" = none :=
  ⟨C4_colon_split_amended.1 initState "A: 1" "A" " 1" (by decide) (by decide),
   C4_colon_split_amended.2 initState ": 2.0" "" " 2.0" (by decide) (by decide)⟩

theorem subGEF_nil (n : Nat) : subGEF n [] = [] := by cases n <;> rfl

theorem subEQF_nil (n : Nat) : subEQF n [] = [] := by cases n <;> rfl

theorem subGEF_id (n : Nat) :
    ∀ l : List Char, (∀ c ∈ l, c ≠ '>') → subGEF n l = l := by
  induction n with
  | zero => intro l h; rfl
  | succ n ih =>
    intro l h
    cases l with
    | nil => rfl
    | cons c rest =>
      have hc : c ≠ '>' := h c (List.mem_cons_self c rest)
      simp only [subGEF, if_neg hc]
      rw [ih rest (fun x hx => h x (List.mem_cons_of_mem c hx))]

theorem subEQF_id (n : Nat) :
    ∀ l : List Char, (∀ c ∈ l, c ≠ '=') → subEQF n l = l := by
  induction n with
  | zero => intro l h; rfl
  | succ n ih =>
    intro l h
    cases l with
    | nil => rfl
    | cons c rest =>
      have hc : c ≠ '=' := h c (List.mem_cons_self c rest)
      simp only [subEQF, if_neg hc]
      rw [ih rest (fun x hx => h x (List.mem_cons_of_mem c hx))]

theorem verChar_ne_eq {c : Char} (h : isVerChar c = true) : c ≠ '=' := by
  intro hc
  rw [hc] at h
  exact absurd h (by decide)

theorem verChar_ne_gt {c : Char} (h : isVerChar c = true) : c ≠ '>' := by
  intro hc
  rw [hc] at h
  exact absurd h (by decide)

theorem subGEF_ge_step (fuel : Nat) (v : List Char) (hv : v ≠ [])
    (hall : ∀ c ∈ v, isVerChar c = true) :
    subGEF (fuel + 1) ('>' :: '=' :: ' ' :: v) = '@' :: (v ++ [':']) := by
  obtain ⟨c, v', rfl⟩ := List.exists_cons_of_ne_nil hv
  have ht : (c :: v').takeWhile isVerChar = c :: v' :=
    List.takeWhile_eq_self_iff.mpr hall
  have hws : (' ' : Char).isWhitespace = true := by decide
  simp only [subGEF, if_pos rfl, hws, if_pos, ht, List.drop_length, subGEF_nil]

theorem subEQF_eq_step (fuel : Nat) (v : List Char) (hv : v ≠ [])
    (hall : ∀ c ∈ v, isVerChar c = true) :
    subEQF (fuel + 1) ('=' :: '=' :: ' ' :: v) = '@' :: v := by
  obtain ⟨c, v', rfl⟩ := List.exists_cons_of_ne_nil hv
  have ht : (c :: v').takeWhile isVerChar = c :: v' :=
    List.takeWhile_eq_self_iff.mpr hall
  have hws : (' ' : Char).isWhitespace = true := by decide
  simp only [subEQF, if_pos rfl, hws, if_pos, ht, List.drop_length, subEQF_nil,
    List.append_nil]

/-- C2: normalization lower-cases the foreign name and adds the r- namespace
(except the self-referential R, which maps to the bare identifier r), turns
a ">= v" clause into the open lower bound "@v:", an "== v" clause into the
pin "@v", and the absence of a parenthesized clause into no constraint;
concretely "R (>= 2.15.0)" gives r@2.15.0:, "xtable" gives r-xtable, and
"dplyr (== 1.1.0)" gives r-dplyr@1.1.0. -/
theorem C2_specifier_normalization :
    normalizeDep "R (>= 2.15.0)" = .ok ("r", "r@2.15.0:") ∧
    normalizeDep "xtable" = .ok ("r-xtable", "r-xtable") ∧
    normalizeDep "dplyr (== 1.1.0)" = .ok ("r-dplyr", "r-dplyr@1.1.0") ∧
    (∀ l : List Char, l ≠ [] → (∀ c ∈ l, isWordChar c = true) →
      normalizeDep ⟨l⟩ =
        .ok (if pyLower ⟨l⟩ = "r" then "r" else "r-" ++ pyLower ⟨l⟩,
             if pyLower ⟨l⟩ = "r" then "r" else "r-" ++ pyLower ⟨l⟩)) ∧
    (∀ v : List Char, v ≠ [] → (∀ c ∈ v, isVerChar c = true) →
      translateClause ⟨'>' :: '=' :: ' ' :: v⟩ = ⟨'@' :: (v ++ [':'])⟩ ∧
      translateClause ⟨'=' :: '=' :: ' ' :: v⟩ = ⟨'@' :: v⟩) := by
  refine ⟨rfl, rfl, rfl, ?_, ?_⟩
  · intro l hl hall
    have ht : l.takeWhile isWordChar = l := List.takeWhile_eq_self_iff.mpr hall
    have hlead : leadingName ⟨l⟩ = some ⟨l⟩ := by
      unfold leadingName
      obtain ⟨c, l', rfl⟩ := List.exists_cons_of_ne_nil hl
      simp only [ht]
    have hpar : parenContents ⟨l⟩ = none := by
      unfold parenContents
      have hdrop : l.dropWhile (· ≠ '(') = [] := by
        rw [List.dropWhile_eq_nil_iff]
        intro x hx
        have hw := hall x hx
        simp only [decide_eq_true_eq]
        intro heq
        rw [heq] at hw
        exact absurd hw (by decide)
      simp only [hdrop]
    unfold normalizeDep
    rw [hlead, hpar]
  · intro v hv hall
    obtain ⟨c, v', hvv⟩ := List.exists_cons_of_ne_nil hv
    constructor
    · have hnogt : ∀ x ∈ ('@' :: (v ++ [':'])), x ≠ '=' := by
        intro x hx
        rcases List.mem_cons.mp hx with h1 | h2
        · rw [h1]; decide
        · rcases List.mem_append.mp h2 with h3 | h4
          · exact verChar_ne_eq (hall x h3)
          · rw [List.mem_singleton.mp h4]; decide
      simp only [translateClause]
      have hlen : ('>' :: '=' :: ' ' :: v).length = (v.length + 2) + 1 := by
        simp only [List.length_cons]
      rw [hlen, subGEF_ge_step (v.length + 2) v hv hall,
        subEQF_id _ _ hnogt]
    · have hnogt : ∀ x ∈ ('=' :: '=' :: ' ' :: v), x ≠ '>' := by
        intro x hx
        rcases List.mem_cons.mp hx with h1 | hx
        · rw [h1]; decide
        · rcases List.mem_cons.mp hx with h1 | hx
          · rw [h1]; decide
          · rcases List.mem_cons.mp hx with h1 | hx
            · rw [h1]; decide
            · exact verChar_ne_gt (hall x hx)
      simp only [translateClause]
      rw [subGEF_id _ _ hnogt]
      have hlen : ('=' :: '=' :: ' ' :: v).length = (v.length + 2) + 1 := by
        simp only [List.length_cons]
      rw [hlen, subEQF_eq_step (v.length + 2) v hv hall]

theorem C2_witness :
    normalizeDep "Matrix" = Except.ok ("r-matrix", "r-matrix") ∧
    translateClause ">= 3.0-2" = "@3.0-2:" ∧
    translateClause "== 1.4" = "@1.4" := by
  refine ⟨?_, ?_, ?_⟩
  · have h := C2_specifier_normalization.2.2.2.1 ['M', 'a', 't', 'r', 'i', 'x']
      (by decide) (by decide)
    simpa using h
  · have h := (C2_specifier_normalization.2.2.2.2 ['3', '.', '0', '-', '2']
      (by decide) (by decide)).1
    simpa using h
  · have h := (C2_specifier_normalization.2.2.2.2 ['1', '.', '4']
      (by decide) (by decide)).2
    simpa using h

theorem find?_key_replaced (k v : String) :
    ∀ d : List (String × String), d.any (fun p => p.1 == k) = true →
      (d.map fun p => if p.1 == k then (k, v) else p).find? (fun p => p.1 == k) =
        some (k, v) := by
  intro d
  induction d with
  | nil => intro h; simp at h
  | cons p rest ih =>
    intro h
    by_cases hp : (p.1 == k) = true
    · simp only [List.map_cons, if_pos hp, List.find?_cons, beq_self_eq_true]
    · have hp2 : (p.1 == k) = false := by simpa using hp
      have hrest : rest.any (fun q => q.1 == k) = true := by
        simp only [List.any_cons, Bool.or_eq_true] at h
        exact h.resolve_left hp
      simp only [List.map_cons, if_neg hp]
      simp only [List.find?_cons, hp2]
      exact ih hrest

theorem find?_key_appended (k v : String) :
    ∀ d : List (String × String), d.any (fun p => p.1 == k) = false →
      (d ++ [(k, v)]).find? (fun p => p.1 == k) = some (k, v) := by
  intro d
  induction d with
  | nil =>
    intro _
    simp only [List.nil_append, List.find?_cons, beq_self_eq_true]
  | cons p rest ih =>
    intro h
    simp only [List.any_cons, Bool.or_eq_false_iff] at h
    simp only [List.cons_append, List.find?_cons, h.1]
    exact ih h.2

theorem lookupR_dictInsert (d : List (String × String)) (k v : String) :
    lookupR (dictInsert d k v) k = some v := by
  unfold dictInsert lookupR
  cases hd : d.any (fun p => p.1 == k) with
  | true =>
    rw [if_pos rfl, find?_key_replaced k v d hd]
    rfl
  | false =>
    rw [if_neg (by simp), find?_key_appended k v d hd]
    rfl

/-- C9: when several foreign specifiers normalize to the same dependency
name, the normalized-dependency dict keeps only the constraint written last
(Python dict assignment: last write wins, no merging). -/
theorem C9_last_write_wins :
    (∀ (d : List (String × String)) (k v1 v2 : String),
      lookupR (dictInsert (dictInsert d k v1) k v2) k = some v2) ∧
    buildDeps ["xtable (>= 1.0)", "xtable (== 2.0)"] =
      .ok [("r-xtable", "r-xtable@2.0")] :=
  ⟨fun _ k _ v2 => lookupR_dictInsert _ k v2, rfl⟩

/-- C5 counterexample: for the Imports value "A, ,B" the code's candidate
specifier list is not the trim-then-drop-empty-fragments list the claim
describes — the whitespace-only fragment survives as the empty string. -/
theorem C5_counterexample :
    extractDeps [[("Imports", "A, ,B")]] ≠
      ((pySplit ',' "A, ,B").map pyStrip).filter (fun d => d ≠ "") := by decide

/-- C5 amended: fragments are dropped only when empty before stripping, and
then stripped; a whitespace-only fragment therefore strips to the empty
string, does reach name extraction, and trips the hard error there. -/
theorem C5_fragment_filtering_amended :
    (∀ v : String, extractDeps [[("Imports", v)]] =
      ((pySplit ',' v).filter (fun d => d ≠ "")).map pyStrip) ∧
    buildDeps (extractDeps [[("Imports", "A, ,B")]]) =
      .error "Unable to find package name in " := by
  constructor
  · intro v
    have h1 : lookupR [("Imports", v)] "Imports" = some v := rfl
    have h2 : lookupR [("Imports", v)] "Depends" = none := rfl
    simp [extractDeps, h1, h2]
  · rfl

/-- C6: a specifier fragment with no extractable leading name token makes
normalization fail with the assert message "Unable to find package name",
and this error aborts the whole reconciliation and install — only
ImportError is caught, so it propagates, not retried. -/
theorem C6_malformed_specifier_error :
    (∀ r_dep : String, leadingName r_dep = none →
      normalizeDep r_dep = .error ("Unable to find package name in " ++ r_dep)) ∧
    (∀ (text : String) (satisfies : String → String → Bool)
       (merged : List (String × String)) (ver : String)
       (configArgs configVars : List String) (rLibDir sourcePath e : String),
      reconcileFromText satisfies merged ver text = .error e →
      install true text satisfies merged ver configArgs configVars rLibDir sourcePath =
        .error e) ∧
    install true "Imports: (bad)" (fun _ _ => true) [] "1.0" [] [] "lib" "src" =
      .error "Unable to find package name in (bad)" := by
  refine ⟨?_, ?_, rfl⟩
  · intro r_dep h
    unfold normalizeDep
    rw [h]
  · intro text satisfies merged ver ca cv lib sp e h
    unfold install
    rw [if_pos rfl, h]

theorem C6_witness :
    normalizeDep "(bad)" = Except.error "Unable to find package name in (bad)" ∧
    install true ": x" (fun _ _ => true) [] "1.0" [] [] "lib" "src" =
      Except.error "IndexError" :=
  ⟨C6_malformed_specifier_error.1 "(bad)" rfl,
   C6_malformed_specifier_error.2.1 ": x" (fun _ _ => true) [] "1.0" [] [] "lib" "src"
     "IndexError" rfl⟩

/-- C7: when the optional pycran capability is unavailable, the entire
reconciliation step is skipped with a single low-severity diagnostic and no
failure, and the install proceeds using only the locally configured
arguments (configure args/vars and the fixed library/source-path tail). -/
theorem C7_pycran_unavailable_skips (text : String)
    (satisfies : String → String → Bool) (merged : List (String × String))
    (ver : String) (configArgs configVars : List String)
    (rLibDir sourcePath : String) :
    install false text satisfies merged ver configArgs configVars rLibDir sourcePath =
      .ok ⟨["R package dependency verification requires pycran"],
           installArgs configArgs configVars rLibDir sourcePath⟩ := rfl

theorem reconcile_eq_filter_map (satisfies : String → String → Bool)
    (deps merged : List (String × String)) (ver : String) :
    ∀ l acc : List String,
      l.foldl (fun acc dep =>
        match lookupR merged dep with
        | some h =>
          if satisfies h (lookupD deps dep) then acc
          else acc ++ [diagLine (lookupD deps dep) ver]
        | none => acc ++ [diagLine (lookupD deps dep) ver]) acc =
      acc ++ ((l.filter fun n =>
        verdictOf satisfies merged n (lookupD deps n) ≠ Verdict.satisfied).map
          (fun n => diagLine (lookupD deps n) ver)) := by
  intro l
  induction l with
  | nil => intro acc; simp
  | cons n l ih =>
    intro acc
    cases hlk : lookupR merged n with
    | none =>
      have hv : verdictOf satisfies merged n (lookupD deps n) = Verdict.missing := by
        simp [verdictOf, hlk]
      simp only [List.foldl_cons, List.filter_cons, hlk]
      rw [ih]
      simp [hv, List.append_assoc]
    | some hspec =>
      cases hs : satisfies hspec (lookupD deps n) with
      | true =>
        have hv : verdictOf satisfies merged n (lookupD deps n) = Verdict.satisfied := by
          simp [verdictOf, hlk, hs]
        simp only [List.foldl_cons, List.filter_cons, hlk, hs]
        rw [ih]
        simp [hv]
      | false =>
        have hv : verdictOf satisfies merged n (lookupD deps n) = Verdict.weaker := by
          simp [verdictOf, hlk, hs]
        simp only [List.foldl_cons, List.filter_cons, hlk, hs]
        rw [ih]
        simp [hv, List.append_assoc]

/-- C1: the reconciler iterates the foreign dependencies in sorted order of
normalized name and assigns verdicts — missing exactly when no merged host
rule exists for the name, weaker exactly when a rule exists whose constraint
does not satisfy the foreign constraint, satisfied otherwise — and emits
exactly one diagnostic line per missing or weaker entry, none for satisfied
entries. -/
theorem C1_reconciler_verdicts (satisfies : String → String → Bool)
    (deps merged : List (String × String)) (ver : String) :
    reconcile satisfies deps merged ver =
      ((sortKeys deps).filter fun n =>
        verdictOf satisfies merged n (lookupD deps n) ≠ Verdict.satisfied).map
        (fun n => diagLine (lookupD deps n) ver) ∧
    List.Sorted (· ≤ ·) (sortKeys deps) ∧
    (∀ n f, verdictOf satisfies merged n f = Verdict.missing ↔
      lookupR merged n = none) ∧
    (∀ n f, verdictOf satisfies merged n f = Verdict.weaker ↔
      ∃ hspec, lookupR merged n = some hspec ∧ satisfies hspec f = false) ∧
    (∀ n f, verdictOf satisfies merged n f = Verdict.satisfied ↔
      ∃ hspec, lookupR merged n = some hspec ∧ satisfies hspec f = true) := by
  refine ⟨?_, List.sorted_insertionSort _ _, ?_, ?_, ?_⟩
  · unfold reconcile
    simpa using reconcile_eq_filter_map satisfies deps merged ver (sortKeys deps) []
  · intro n f
    unfold verdictOf
    cases hlk : lookupR merged n with
    | none => simp
    | some hspec => cases hs : satisfies hspec f <;> simp [hs]
  · intro n f
    unfold verdictOf
    cases hlk : lookupR merged n with
    | none => simp
    | some hspec => cases hs : satisfies hspec f <;> simp [hs]
  · intro n f
    unfold verdictOf
    cases hlk : lookupR merged n with
    | none => simp
    | some hspec => cases hs : satisfies hspec f <;> simp [hs]
